import Mathlib

/-!
Verification of the partition-sizing and layout-planning core of the
macOS-MultiTool-Bootable-Pro repository.

The Python sources are shallowly embedded: Python `int` becomes `ℤ`/`ℕ`,
Python `float` arithmetic is modelled exactly over `ℚ` (all constants in the
source are decimal literals and all quantities stay far from any rounding
boundary that could distinguish binary floating point from exact arithmetic
at the MB scale used here), Python strings become `String` manipulated
through executable helpers that reproduce `str.split`, `str.replace`,
`str.lower`, substring tests (`in`) and `int(...)` parsing, and an uncaught
Python exception becomes `Except PyError`.
-/

namespace MultiTool

/-- Errors a Python expression can raise without being caught. -/
inductive PyError where
  | indexError
  | valueError
  deriving Repr, DecidableEq

instance {ε α : Type} [DecidableEq ε] [DecidableEq α] : DecidableEq (Except ε α) := fun a b =>
  match a, b with
  | .ok x, .ok y =>
    if h : x = y then .isTrue (by rw [h]) else .isFalse (by simp [h])
  | .error x, .error y =>
    if h : x = y then .isTrue (by rw [h]) else .isFalse (by simp [h])
  | .ok _, .error _ => .isFalse (by simp)
  | .error _, .ok _ => .isFalse (by simp)

/-- Python `needle in haystack` (substring containment test). -/
def pyIn (needle haystack : String) : Bool :=
  haystack.data.tails.any (fun t => needle.data.isPrefixOf t)

/-- Helper for `pySplitChar`: splits a character list on a separator,
keeping empty fields, like Python `str.split(sep)`. -/
def splitCharAux (c : Char) : List Char → List Char → List String
  | [], acc => [⟨acc.reverse⟩]
  | x :: rest, acc =>
    if x = c then ⟨acc.reverse⟩ :: splitCharAux c rest []
    else splitCharAux c rest (x :: acc)

/-- Python `s.split(c)` for a one-character separator. -/
def pySplitChar (s : String) (c : Char) : List String :=
  splitCharAux c s.data []

/-- Helper for `pySplitWs`: Python whitespace split (empty fields dropped). -/
def splitWsAux : List Char → List Char → List String
  | [], [] => []
  | [], acc => [⟨acc.reverse⟩]
  | x :: rest, acc =>
    if x.isWhitespace then
      match acc with
      | [] => splitWsAux rest []
      | _ => ⟨acc.reverse⟩ :: splitWsAux rest []
    else splitWsAux rest (x :: acc)

/-- Python `s.split()` (split on whitespace runs, dropping empty fields). -/
def pySplitWs (s : String) : List String :=
  splitWsAux s.data []

/-- Replace every non-overlapping occurrence of `pat` by `rep`, scanning left
to right, like Python `str.replace` (we never call it with an empty pattern).
The `fuel` argument only makes the recursion structural — every step consumes
at least one character, so any `fuel ≥ length` computes the full result. -/
def replaceAllAux (pat rep : List Char) : ℕ → List Char → List Char
  | _, [] => []
  | 0, l => l
  | fuel + 1, c :: rest =>
    if pat ≠ [] ∧ pat.isPrefixOf (c :: rest) then
      rep ++ replaceAllAux pat rep fuel ((c :: rest).drop pat.length)
    else
      c :: replaceAllAux pat rep fuel rest

/-- Python `s.replace(pat, rep)`. -/
def pyReplace (s pat rep : String) : String :=
  ⟨replaceAllAux pat.data rep.data s.data.length s.data⟩

/-- Python `s.lower()` (our inputs are ASCII). -/
def pyLower (s : String) : String :=
  ⟨s.data.map Char.toLower⟩

/-- Python `s[:n]` (character-based truncation). -/
def pyTake (s : String) (n : ℕ) : String :=
  ⟨s.data.take n⟩

/-- Digit/underscore layout accepted by Python `int(...)` after the sign:
underscores must sit between digits. -/
def pyIntTailOk : List Char → Bool
  | [] => true
  | '_' :: [] => false
  | '_' :: c :: rest => c.isDigit && pyIntTailOk (c :: rest)
  | c :: rest => c.isDigit && pyIntTailOk rest

/-- Numeric value of a digit list. -/
def digitsToNat (l : List Char) : ℕ :=
  l.foldl (fun a c => 10 * a + (c.toNat - 48)) 0

/-- Unsigned part of Python `int(...)`. -/
def pyIntNoSign (l : List Char) : Option ℕ :=
  match l with
  | [] => none
  | c :: _ =>
    if c.isDigit && pyIntTailOk l then some (digitsToNat (l.filter (· ≠ '_')))
    else none

/-- Python `int(s)`: strip whitespace, optional sign, digits (with optional
underscores between digits); `none` models a raised `ValueError`. -/
def pyInt (s : String) : Option ℤ :=
  let t := ((s.data.dropWhile Char.isWhitespace).reverse.dropWhile Char.isWhitespace).reverse
  match t with
  | '+' :: rest => (pyIntNoSign rest).map (fun n => (n : ℤ))
  | '-' :: rest => (pyIntNoSign rest).map (fun n => -(n : ℤ))
  | l => (pyIntNoSign l).map (fun n => (n : ℤ))

/-- Python-dict assignment `m[k] = v` on an association list whose keys are
unique (as Python guarantees): overwrite the binding in place if the key
exists, otherwise append — Python dicts preserve first-insertion order. -/
def dictSet : List (String × String) → String → String → List (String × String)
  | [], k, v => [(k, v)]
  | p :: m, k, v => if p.1 = k then (k, v) :: m else p :: dictSet m k v

/-- Python-dict lookup `m.get(k)` / `m[k]` (keys are unique, so the first
binding is the binding). -/
def dictGet : List (String × String) → String → Option String
  | [], _ => none
  | p :: m, k => if p.1 = k then some p.2 else dictGet m k

/-! ## `src/core/constants.py` -/

/-- One value of `OS_DATABASE` (src/core/constants.py lines 10-22). -/
structure OsInfo where
  name : String
  buffer_gb : ℚ
  min_year : ℕ
  deriving Repr, DecidableEq

/-- `OS_DATABASE` (src/core/constants.py lines 10-22), as an ordered
key/value table (Python dicts preserve insertion order). -/
def OS_DATABASE : List (String × OsInfo) :=
  [("26", ⟨"Tahoe", 3.0, 2025⟩),
   ("15", ⟨"Sequoia", 2.5, 2024⟩),
   ("14", ⟨"Sonoma", 2.2, 2023⟩),
   ("13", ⟨"Ventura", 2.0, 2022⟩),
   ("12", ⟨"Monterey", 2.0, 2021⟩),
   ("11", ⟨"Big Sur", 2.0, 2020⟩),
   ("10.15", ⟨"Catalina", 1.5, 2019⟩),
   ("10.14", ⟨"Mojave", 1.5, 2018⟩),
   ("10.13", ⟨"High Sierra", 1.0, 2017⟩),
   ("10.12", ⟨"Sierra", 1.0, 2016⟩),
   ("10.11", ⟨"El Capitan", 1.0, 2015⟩)]

/-- `OS_DATABASE.get(key)` as an ordered lookup. -/
def osLookup (key : String) : Option OsInfo :=
  (OS_DATABASE.find? (fun p => p.1 = key)).map (·.2)

/-- `HFS_OVERHEAD_MULTIPLIER = 0.05` (src/core/constants.py line 25). -/
def HFS_OVERHEAD_MULTIPLIER : ℚ := 0.05

/-- `BOOT_FILES_MB = 200` (src/core/constants.py line 26). -/
def BOOT_FILES_MB : ℚ := 200

/-- `MIN_PARTITION_MB = 5500` (src/core/constants.py line 27). -/
def MIN_PARTITION_MB : ℤ := 5500

/-- `_extract_version_key` (src/core/constants.py lines 83-114).
`version_string.split()[0]` sits before the `try:` block, so the
`IndexError` it raises on a whitespace-only string is not caught. -/
def extract_version_key (version_string : String) : Except PyError String :=
  match pySplitWs version_string with
  | [] => .error .indexError
  | tok :: _ =>
    let clean := (pySplitChar tok '-').headD ""
    let parts := pySplitChar clean '.'
    match parts with
    | [] => .ok "11"
    | p0 :: rest =>
      if p0 = "10" ∧ 2 ≤ parts.length then
        .ok (p0 ++ "." ++ (rest.headD ""))
      else
        match pyInt p0 with
        | some n => if 11 ≤ n then .ok p0 else .ok "11"
        | none => .ok "11"

/-- The arithmetic body of `calculate_partition_size` once `buffer_mb` is
known (src/core/constants.py lines 54-59): `installer_mb` is
`(installer_size_kb : ℚ) / 1024`, `hfs_overhead` is
`installer_mb * HFS_OVERHEAD_MULTIPLIER`, and the result is
`max(MIN_PARTITION_MB, ceil(installer_mb + hfs_overhead + BOOT_FILES_MB + buffer_mb))`. -/
def calc_with_buffer_mb (installer_size_kb : ℕ) (buffer_mb : ℚ) : ℤ :=
  max MIN_PARTITION_MB
    ⌈(installer_size_kb : ℚ) / 1024
      + (installer_size_kb : ℚ) / 1024 * HFS_OVERHEAD_MULTIPLIER
      + BOOT_FILES_MB + buffer_mb⌉

/-- The buffer assembled by `calculate_partition_size` when no override is
given (src/core/constants.py lines 49-52): the database entry for the key, or
the default of `OS_DATABASE.get("default_buffer", 1.0)`, which always yields
`1.0` because no code path ever inserts a `"default_buffer"` key. -/
def catalogBufferGb (version_key : String) : ℚ :=
  ((osLookup version_key).map (·.buffer_gb)).getD 1.0

/-- `calculate_partition_size` (src/core/constants.py lines 29-59). -/
def calculate_partition_size (installer_size_kb : ℕ) (version_string : String)
    (override_buffer_gb : Option ℚ) : Except PyError ℤ :=
  match override_buffer_gb with
  | some b => .ok (calc_with_buffer_mb installer_size_kb (b * 1024))
  | none =>
    match extract_version_key version_string with
    | .error e => .error e
    | .ok version_key =>
      .ok (calc_with_buffer_mb installer_size_kb (catalogBufferGb version_key * 1024))

/-- The `clean_name` computed inside `get_os_name`
(src/core/constants.py line 68). -/
def cleanInstallerName (installer_name : String) : String :=
  pyReplace (pyReplace (pyReplace installer_name "Install macOS " "") "Install " "") ".app" ""

/-- The version-based fallback of `get_os_name`
(src/core/constants.py lines 79-81). -/
def osNameFromVersion (version_string : String) : Except PyError String :=
  match extract_version_key version_string with
  | .error e => .error e
  | .ok version_key => .ok (((osLookup version_key).map (·.name)).getD "macOS")

/-- `get_os_name` (src/core/constants.py lines 61-81). Python's
`if installer_name:` treats both `None` and `""` as false. -/
def get_os_name (version_string : String) (installer_name : Option String) :
    Except PyError String :=
  match installer_name with
  | some nm =>
    if nm = "" then osNameFromVersion version_string
    else
      let clean_name := cleanInstallerName nm
      match OS_DATABASE.find? (fun p => pyIn (pyLower p.2.name) (pyLower clean_name)) with
      | some p => .ok p.2.name
      | none =>
        if pyIn "Sierra" clean_name ∧ ¬ pyIn "High" clean_name then .ok "Sierra"
        else if pyIn "High Sierra" clean_name then .ok "High Sierra"
        else if pyIn "El Capitan" clean_name then .ok "El Capitan"
        else osNameFromVersion version_string
  | none => osNameFromVersion version_string

/-! ## `src/operations/partitioner.py` -/

/-- An installer descriptor: the dict keys the planner reads (`name`,
`version`, `size_kb`, and the optional `buffer_gb` injected by the GUI). -/
structure Installer where
  name : String
  version : String
  size_kb : ℕ
  buffer_gb : Option ℚ
  deriving Repr, DecidableEq

/-- The `INSTALL_<OsName>_<VersionClean>` volume-name construction shared by
partitioner.py lines 45-47 and updater.py lines 103-105, 150-152, 177-179:
`version.replace('.', '_').split()[0]`, assembled and truncated to 27
characters. The `split()[0]` raises `IndexError` on a whitespace-only
version string. -/
def installerPartName (os_name : String) (version : String) : Except PyError String :=
  match pySplitWs (pyReplace version "." "_") with
  | [] => .error .indexError
  | tok :: _ => .ok (pyTake ("INSTALL_" ++ os_name ++ "_" ++ tok) 27)

/-- The installer loop of `create_multiboot_layout` (partitioner.py lines
33-50), threading the flat `diskutil` triple list and `used_gb`. Note the
source stores the result of `calculate_partition_size` — megabytes — in a
variable named `size_gb`, prints it with a `G` suffix, and adds it to a
gigabyte-denominated running total. -/
def layoutFold : List Installer → List String → ℤ → Except PyError (List String × ℤ)
  | [], partitions, used_gb => .ok (partitions, used_gb)
  | inst :: rest, partitions, used_gb =>
    match calculate_partition_size inst.size_kb inst.version inst.buffer_gb with
    | .error e => .error e
    | .ok size_gb =>
      match get_os_name inst.version none with
      | .error e => .error e
      | .ok os_name =>
        match installerPartName os_name inst.version with
        | .error e => .error e
        | .ok part_name =>
          layoutFold rest (partitions ++ ["JHFS+", part_name, toString size_gb ++ "G"])
            (used_gb + size_gb)

/-- `create_multiboot_layout` (partitioner.py lines 9-62) up to the external
`diskutil partitionDisk` invocation: the flat partition argument list it
builds (each consecutive triple is one partition plan entry). -/
def create_multiboot_layout (installers : List Installer) (total_disk_gb : ℚ) :
    Except PyError (List String) :=
  match layoutFold installers ["JHFS+", "EFI_SYSTEM", "1G"] 1 with
  | .error e => .error e
  | .ok (partitions, used_gb) =>
    if 2 < total_disk_gb - (used_gb : ℚ) then .ok (partitions ++ ["ExFAT", "DATA_STORE", "R"])
    else .ok partitions

/-! ## `src/operations/updater.py` -/

/-- One entry of a parsed `Partitions` array (with the `.get` defaults the
source applies: `VolumeName` defaults to `""`, `Size` to `0`). -/
structure PlistPartition where
  volumeName : String
  size : ℕ
  deviceIdentifier : String
  deriving Repr, DecidableEq

/-- One entry of a parsed `AllDisksAndPartitions` array. -/
structure PlistDisk where
  deviceIdentifier : String
  size : ℕ
  partitions : List PlistPartition
  deriving Repr, DecidableEq

/-- The `data_partition` record built by `get_drive_structure`. -/
structure DataPartition where
  id : String
  size : ℕ
  deriving Repr, DecidableEq

/-- One entry of the `existing_partitions` detail list. -/
structure ExistingPartition where
  name : String
  clean_name : String
  id : String
  size : ℕ
  deriving Repr, DecidableEq

/-- The result dict of `get_drive_structure` (updater.py lines 27-33). -/
structure DriveInfo where
  data_partition : Option DataPartition
  existing_installers : List (String × String)
  existing_partitions : List ExistingPartition
  disk_size : ℕ
  free_space : ℤ
  deriving Repr, DecidableEq

/-- `clean_name` as computed in `get_drive_structure` (updater.py line 57). -/
def cleanVolumeName (vol : String) : String :=
  pyReplace (pyReplace (pyReplace vol "Install macOS " "") "INSTALL_" "") "macOS " ""

/-- The installer-classification test of updater.py line 56. -/
def isInstallerVolume (vol : String) : Bool :=
  pyIn "Install macOS" vol || pyIn "INSTALL_" vol || pyIn "macOS" vol

/-- Per-partition body of the scan loop in `get_drive_structure`
(updater.py lines 45-72); the second component is `used_size`. -/
def scanPartition (acc : DriveInfo × ℕ) (p : PlistPartition) : DriveInfo × ℕ :=
  let info := acc.1
  let used := acc.2 + p.size
  if p.volumeName = "DATA_STORE" then
    ({ info with data_partition := some ⟨p.deviceIdentifier, p.size⟩ }, used)
  else if isInstallerVolume p.volumeName then
    let clean_name := cleanVolumeName p.volumeName
    ({ info with
        existing_installers :=
          dictSet (dictSet info.existing_installers clean_name p.deviceIdentifier)
            p.volumeName p.deviceIdentifier,
        existing_partitions :=
          info.existing_partitions ++ [⟨p.volumeName, clean_name, p.deviceIdentifier, p.size⟩] },
      used)
  else (info, used)

/-- Per-disk body of `get_drive_structure` (updater.py lines 40-74). -/
def scanDisk (info : DriveInfo) (e : PlistDisk) : DriveInfo :=
  let res := e.partitions.foldl scanPartition ({ info with disk_size := e.size }, 0)
  { res.1 with free_space := (e.size : ℤ) - (res.2 : ℤ) }

/-- One step of the disk loop: `if entry.get('DeviceIdentifier') == disk_id`
(updater.py line 41). -/
def scanIfMatch (disk_id : String) (info : DriveInfo) (e : PlistDisk) : DriveInfo :=
  if e.deviceIdentifier = disk_id then scanDisk info e else info

/-- `get_drive_structure` (updater.py lines 11-86) as a function of the
parsed `diskutil list -plist` payload (its `AllDisksAndPartitions` array).
The subprocess/parse failure path that returns `None` is an external event
and is modelled where needed by an `Option DriveInfo` environment. -/
def get_drive_structure (disk_id : String) (allDisks : List PlistDisk) : DriveInfo :=
  allDisks.foldl (scanIfMatch disk_id) ⟨none, [], [], 0, 0⟩

/-- The `existing_partitions` record built from one scanned partition. -/
def partitionEntry (p : PlistPartition) : ExistingPartition :=
  ⟨p.volumeName, cleanVolumeName p.volumeName, p.deviceIdentifier, p.size⟩

/-- Whether a scanned partition lands in the installer branch of
`get_drive_structure` (not `DATA_STORE`, and named like an installer). -/
def isClassifiedInstaller (p : PlistPartition) : Bool :=
  !(p.volumeName == "DATA_STORE") && isInstallerVolume p.volumeName

/-- The installer entries a partition list contributes, in scan order. -/
def installerEntries (ps : List PlistPartition) : List ExistingPartition :=
  (ps.filter isClassifiedInstaller).map partitionEntry

/-- All installer entries contributed by the disk entries matching
`disk_id`, in scan order. -/
def allInstallerEntries (disk_id : String) (allDisks : List PlistDisk) :
    List ExistingPartition :=
  (allDisks.filter (fun e => e.deviceIdentifier == disk_id)).flatMap
    (fun e => installerEntries e.partitions)

/-- Whether `k` is one of the two keys `get_drive_structure` inserts for an
installer entry. -/
def entryKeyMatch (k : String) (q : ExistingPartition) : Bool :=
  (q.clean_name == k) || (q.name == k)

/-- One attempted `diskutil splitPartition` call: the target partition
identifier and the volume name being carved out of it. -/
structure SplitAttempt where
  target : String
  part_name : String
  deriving Repr, DecidableEq

/-- One element of the `new_partitions` result list of the updater batch
functions. -/
structure NewPartition where
  name : String
  installer : Installer
  deriving Repr, DecidableEq

/-- `split_partition` (updater.py lines 88-134). The outside world is passed
explicitly: `oks` lists the success of each successive
`diskutil splitPartition` invocation, and `reads` the result of each
successive `get_drive_structure` re-read (`none` for a failed read; an
exhausted list also models failure). The first output component is the trace
of split attempts in order; the second is the Python return value, with
`none` modelling `return None`. -/
def split_partition (current_part : String) (new_installers : List Installer)
    (oks : List Bool) (reads : List (Option DriveInfo)) :
    Except PyError (List SplitAttempt × Option (List NewPartition)) :=
  match new_installers with
  | [] => .ok ([], some [])
  | inst :: rest =>
    match calculate_partition_size inst.size_kb inst.version inst.buffer_gb with
    | .error e => .error e
    | .ok _size_mb =>
      match get_os_name inst.version (some inst.name) with
      | .error e => .error e
      | .ok os_name =>
        match installerPartName os_name inst.version with
        | .error e => .error e
        | .ok part_name =>
          let att : SplitAttempt := ⟨current_part, part_name⟩
          match oks with
          | [] => .ok ([att], none)
          | ok :: oks' =>
            if ok then
              let np : NewPartition := ⟨part_name, inst⟩
              if rest.isEmpty then .ok ([att], some [np])
              else
                match reads with
                | [] => .ok ([att], some [np])
                | r :: reads' =>
                  match r with
                  | none => .ok ([att], some [np])
                  | some st =>
                    match st.data_partition with
                    | none => .ok ([att], some [np])
                    | some dp =>
                      match split_partition dp.id rest oks' reads' with
                      | .error e => .error e
                      | .ok (tr, res) => .ok (att :: tr, res.map (np :: ·))
            else .ok ([att], none)

/-- `add_partition_to_free_space` (updater.py lines 136-171); `oks` lists
the success of each successive `diskutil addPartition` call (the `disk_id`
argument only appears inside the shelled-out command). `none` models
`return None`. -/
def add_partition_to_free_space (new_installers : List Installer) (oks : List Bool) :
    Except PyError (Option (List NewPartition)) :=
  match new_installers with
  | [] => .ok (some [])
  | inst :: rest =>
    match calculate_partition_size inst.size_kb inst.version inst.buffer_gb with
    | .error e => .error e
    | .ok _size_mb =>
      match get_os_name inst.version (some inst.name) with
      | .error e => .error e
      | .ok os_name =>
        match installerPartName os_name inst.version with
        | .error e => .error e
        | .ok part_name =>
          match oks with
          | [] => .ok none
          | ok :: oks' =>
            if ok then
              match add_partition_to_free_space rest oks' with
              | .error e => .error e
              | .ok res => .ok (res.map (fun l => (⟨part_name, inst⟩ : NewPartition) :: l))
            else .ok none

/-! ## Update-mode action planning (src/ui/gui_tkinter.py lines 1255-1273) -/

/-- The planned actions of `run_update_thread`: the dicts
`{'type': 'replace', ...}` and `{'type': 'add', ...}`. No other action kind
exists in the source. -/
inductive PlannedAction where
  | replace (installer : Installer) (target : String)
  | add (installer : Installer)
  deriving Repr, DecidableEq

/-- The per-installer matching step (gui_tkinter.py lines 1260-1267): an
exact dict-key hit (`if new_os_name in existing_map`), otherwise the first
key that contains `new_os_name` as a substring. -/
def matchInstaller (existing_map : List (String × String)) (new_os_name : String) :
    Option String :=
  match dictGet existing_map new_os_name with
  | some pid => some pid
  | none => (existing_map.find? (fun p => pyIn new_os_name p.1)).map (·.2)

/-- The action-planning loop of `MultiToolGUI.run_update_thread`
(gui_tkinter.py lines 1255-1273). -/
def plan_update_actions (existing_map : List (String × String)) :
    List Installer → Except PyError (List PlannedAction)
  | [] => .ok []
  | inst :: rest =>
    match get_os_name inst.version (some inst.name) with
    | .error e => .error e
    | .ok new_os_name =>
      let act := match matchInstaller existing_map new_os_name with
        | some pid => PlannedAction.replace inst pid
        | none => PlannedAction.add inst
      match plan_update_actions existing_map rest with
      | .error e => .error e
      | .ok acts => .ok (act :: acts)

/-! ## Spec-side definition for the corrected claim C8 -/

/-- Modelled from the spec (§4.1) as amended: the key is the token before
the first space, then before the first hyphen, split on `.`; a leading
component equal to the string `"10"` with a second component present gives
`"10.<second>"`; otherwise the first component is the key only when it
parses as an integer that is at least 11, and everything else defaults to
`"11"`; a version string with no non-whitespace characters raises
`IndexError`. -/
def version_key_amended (version_string : String) : Except PyError String :=
  match pySplitWs version_string with
  | [] => .error .indexError
  | tok :: _ =>
    match pySplitChar ((pySplitChar tok '-').headD "") '.' with
    | [] => .ok "11"
    | [p0] =>
      match pyInt p0 with
      | some n => if 11 ≤ n then .ok p0 else .ok "11"
      | none => .ok "11"
    | p0 :: p1 :: _ =>
      if p0 = "10" then .ok ("10." ++ p1)
      else
        match pyInt p0 with
        | some n => if 11 ≤ n then .ok p0 else .ok "11"
        | none => .ok "11"

/-! ## Concrete fixtures used by the claim theorems -/

/-- A Sonoma installer sized so that its required partition is exactly
18000 MB: `15361024 KB / 1024 = 15001 MB`, overhead `750.05`, boot `200`,
override buffer `2 GB = 2048 MB`, total `17999.05`, ceiling `18000`. -/
def sonomaInstaller : Installer :=
  ⟨"Install macOS Sonoma.app", "14.0", 15361024, some 2⟩

/-- A High Sierra installer with the same payload and override. -/
def highSierraInstaller : Installer :=
  ⟨"Install macOS High Sierra.app", "10.13.6", 15361024, some 2⟩

/-- A drive with one installer partition `"Install macOS Sonoma"` of
5 GiB (5368709120 bytes). -/
def sonomaDrive : DriveInfo :=
  get_drive_structure "disk2"
    [⟨"disk2", 64000000000, [⟨"Install macOS Sonoma", 5368709120, "disk2s2"⟩]⟩]

/-- A drive with one installer partition `"Install macOS Sierra"`. -/
def sierraDrive : DriveInfo :=
  get_drive_structure "disk2"
    [⟨"disk2", 64000000000, [⟨"Install macOS Sierra", 5368709120, "disk2s2"⟩]⟩]

/-- A drive whose only partition is the `DATA_STORE` region, at slot
`disk2s9`. -/
def dataDrive : DriveInfo :=
  get_drive_structure "disk2"
    [⟨"disk2", 64000000000, [⟨"DATA_STORE", 10000000000, "disk2s9"⟩]⟩]

/-- A drive with two installer partitions whose clean names collide:
`"INSTALL_Sonoma"` and `"Install macOS Sonoma"` both clean to `"Sonoma"`. -/
def dupNameDrive : DriveInfo :=
  get_drive_structure "disk2"
    [⟨"disk2", 64000000000,
      [⟨"INSTALL_Sonoma", 100, "disk2s2"⟩,
       ⟨"Install macOS Sonoma", 200, "disk2s3"⟩]⟩]

/-! ## Evaluation helpers for the (kernel-irreducible) rational arithmetic -/

/-- Evaluate `calc_with_buffer_mb` when the ceiling exceeds the floor. -/
theorem calc_with_buffer_mb_eval (kb : ℕ) (bmb : ℚ) (n : ℤ)
    (h1 : MIN_PARTITION_MB ≤ n)
    (h2 : (n : ℚ) - 1 < (kb : ℚ) / 1024 + (kb : ℚ) / 1024 * HFS_OVERHEAD_MULTIPLIER
      + BOOT_FILES_MB + bmb)
    (h3 : (kb : ℚ) / 1024 + (kb : ℚ) / 1024 * HFS_OVERHEAD_MULTIPLIER
      + BOOT_FILES_MB + bmb ≤ (n : ℚ)) :
    calc_with_buffer_mb kb bmb = n := by
  unfold calc_with_buffer_mb
  rw [Int.ceil_eq_iff.mpr ⟨h2, h3⟩, max_eq_right h1]

/-- Evaluate `calc_with_buffer_mb` when the floor wins. -/
theorem calc_with_buffer_mb_eval_min (kb : ℕ) (bmb : ℚ)
    (h : (kb : ℚ) / 1024 + (kb : ℚ) / 1024 * HFS_OVERHEAD_MULTIPLIER
      + BOOT_FILES_MB + bmb ≤ (MIN_PARTITION_MB : ℚ)) :
    calc_with_buffer_mb kb bmb = MIN_PARTITION_MB := by
  unfold calc_with_buffer_mb
  exact max_eq_left (Int.ceil_le.mpr h)

/-- Catalog buffer for Sonoma. -/
theorem catalogBufferGb_14 : catalogBufferGb "14" = 2.2 := rfl

/-- 13 GB payload, version "14.0", no override: 16431 MB. -/
theorem evalCalc_13g_sonoma :
    calculate_partition_size (13 * 1024 * 1024) "14.0" none = .ok 16431 := by
  have hk : extract_version_key "14.0" = .ok "14" := by decide
  simp only [calculate_partition_size, hk, catalogBufferGb_14]
  rw [calc_with_buffer_mb_eval (13 * 1024 * 1024) (2.2 * 1024) 16431 (by norm_num [MIN_PARTITION_MB])
    (by norm_num [HFS_OVERHEAD_MULTIPLIER, BOOT_FILES_MB])
    (by norm_num [HFS_OVERHEAD_MULTIPLIER, BOOT_FILES_MB])]

/-- Zero payload, version "14.0", no override: the 5500 MB floor. -/
theorem evalCalc_zero_sonoma :
    calculate_partition_size 0 "14.0" none = .ok MIN_PARTITION_MB := by
  have hk : extract_version_key "14.0" = .ok "14" := by decide
  simp only [calculate_partition_size, hk, catalogBufferGb_14]
  rw [calc_with_buffer_mb_eval_min 0 (2.2 * 1024)
    (by norm_num [HFS_OVERHEAD_MULTIPLIER, BOOT_FILES_MB, MIN_PARTITION_MB])]

/-- 15361024 KB payload with a 2 GB override: exactly 18000 MB. -/
theorem evalCalc_18000 :
    calculate_partition_size 15361024 "14.0" (some 2) = .ok 18000 := by
  simp only [calculate_partition_size]
  rw [calc_with_buffer_mb_eval 15361024 (2 * 1024) 18000 (by norm_num [MIN_PARTITION_MB])
    (by norm_num [HFS_OVERHEAD_MULTIPLIER, BOOT_FILES_MB])
    (by norm_num [HFS_OVERHEAD_MULTIPLIER, BOOT_FILES_MB])]

/-- 15361024 KB payload with a 3 GB override: 19024 MB. -/
theorem evalCalc_19024 :
    calculate_partition_size 15361024 "14.0" (some 3) = .ok 19024 := by
  simp only [calculate_partition_size]
  rw [calc_with_buffer_mb_eval 15361024 (3 * 1024) 19024 (by norm_num [MIN_PARTITION_MB])
    (by norm_num [HFS_OVERHEAD_MULTIPLIER, BOOT_FILES_MB])
    (by norm_num [HFS_OVERHEAD_MULTIPLIER, BOOT_FILES_MB])]

/-- Zero payload with version "x" (unknown key, fallback buffer 1.0) floors
at `MIN_PARTITION_MB`. -/
theorem evalCalc_zero_x : calculate_partition_size 0 "x" none = .ok MIN_PARTITION_MB := by
  have hk : extract_version_key "x" = .ok "11" := by decide
  have hb : catalogBufferGb "11" = 2.0 := rfl
  simp only [calculate_partition_size, hk, hb]
  rw [calc_with_buffer_mb_eval_min 0 (2.0 * 1024)
    (by norm_num [HFS_OVERHEAD_MULTIPLIER, BOOT_FILES_MB, MIN_PARTITION_MB])]

/-- The constant-folding step shared by the formula statements: the source
constants written as the numerals the spec uses. -/
theorem total_mb_constants (kb : ℕ) (bmb : ℚ) :
    (kb : ℚ) / 1024 + (kb : ℚ) / 1024 * HFS_OVERHEAD_MULTIPLIER + BOOT_FILES_MB + bmb =
      (kb : ℚ) / 1024 + (kb : ℚ) / 1024 * (5 / 100) + 200 + bmb := by
  norm_num [HFS_OVERHEAD_MULTIPLIER, BOOT_FILES_MB]

/-- The floor of `calc_with_buffer_mb`. -/
theorem calc_with_buffer_mb_min_le (kb : ℕ) (bmb : ℚ) :
    MIN_PARTITION_MB ≤ calc_with_buffer_mb kb bmb :=
  le_max_left _ _

/-- Monotonicity of the sizing body in payload and buffer. -/
theorem calc_with_buffer_mb_mono (kb₁ kb₂ : ℕ) (b₁ b₂ : ℚ)
    (hkb : kb₁ ≤ kb₂) (hb : b₁ ≤ b₂) :
    calc_with_buffer_mb kb₁ b₁ ≤ calc_with_buffer_mb kb₂ b₂ := by
  unfold calc_with_buffer_mb
  apply max_le_max le_rfl
  apply Int.ceil_mono
  have hq : (kb₁ : ℚ) / 1024 ≤ (kb₂ : ℚ) / 1024 := by
    apply div_le_div_of_nonneg_right ?_ (by norm_num)
    exact_mod_cast hkb
  have hm : (kb₁ : ℚ) / 1024 * HFS_OVERHEAD_MULTIPLIER ≤ (kb₂ : ℚ) / 1024 * HFS_OVERHEAD_MULTIPLIER :=
    mul_le_mul_of_nonneg_right hq (by norm_num [HFS_OVERHEAD_MULTIPLIER])
  exact add_le_add (add_le_add (add_le_add hq hm) le_rfl) hb

/-! ## Claim theorems -/

/-- C1: `calculate_partition_size` computes
`max(MIN_PARTITION_MB, ceil(payloadKB/1024 + (payloadKB/1024)*5% + 200 + effectiveBufferGB*1024))`
where the effective buffer is the override if given, otherwise the catalog
buffer of the normalized key (with its 1.0 fallback); for payload
`13*1024*1024` KB, version `"14.0"`, no override, the result is 16431 MB,
inside the spec's 16,200-16,700 MB range. The only deviation is the code
bug recorded in the last hypothesis-free conjunct: a version string with no
non-whitespace characters and no override raises `IndexError` instead of
using the fallback buffer. -/
theorem C1_sizing_formula (kb : ℕ) (b : ℚ) (v : String) (key : String)
    (hkey : extract_version_key v = .ok key) :
    calculate_partition_size kb v (some b) =
      .ok (max MIN_PARTITION_MB
        ⌈(kb : ℚ) / 1024 + (kb : ℚ) / 1024 * (5 / 100) + 200 + b * 1024⌉) ∧
    calculate_partition_size kb v none =
      .ok (max MIN_PARTITION_MB
        ⌈(kb : ℚ) / 1024 + (kb : ℚ) / 1024 * (5 / 100) + 200 + catalogBufferGb key * 1024⌉) ∧
    calculate_partition_size 0 "" none = .error .indexError ∧
    calculate_partition_size (13 * 1024 * 1024) "14.0" none = .ok 16431 ∧
    ((16200 : ℤ) ≤ 16431 ∧ (16431 : ℤ) ≤ 16700) := by
  refine ⟨?_, ?_, rfl, evalCalc_13g_sonoma, by norm_num⟩
  · simp only [calculate_partition_size, calc_with_buffer_mb, total_mb_constants]
  · simp only [calculate_partition_size, hkey, calc_with_buffer_mb, total_mb_constants]

/-- Witness for C1 at payload `13*1024*1024`, version `"14.0"`, override 2 GB. -/
theorem C1_sizing_formula_witness :
    calculate_partition_size (13 * 1024 * 1024) "14.0" (some 2) =
      .ok (max MIN_PARTITION_MB
        ⌈((13 * 1024 * 1024 : ℕ) : ℚ) / 1024 + ((13 * 1024 * 1024 : ℕ) : ℚ) / 1024 * (5 / 100)
          + 200 + 2 * 1024⌉) ∧
    calculate_partition_size (13 * 1024 * 1024) "14.0" none =
      .ok (max MIN_PARTITION_MB
        ⌈((13 * 1024 * 1024 : ℕ) : ℚ) / 1024 + ((13 * 1024 * 1024 : ℕ) : ℚ) / 1024 * (5 / 100)
          + 200 + catalogBufferGb "14" * 1024⌉) ∧
    calculate_partition_size 0 "" none = .error .indexError ∧
    calculate_partition_size (13 * 1024 * 1024) "14.0" none = .ok 16431 ∧
    ((16200 : ℤ) ≤ 16431 ∧ (16431 : ℤ) ≤ 16700) :=
  C1_sizing_formula (13 * 1024 * 1024) 2 "14.0" "14" (by decide)

/-- C3: whenever `calculate_partition_size` returns, the result is at least
`MIN_PARTITION_MB`; but it is not total — the claim's "never raises for any
version string, including empty" fails because `version_string.split()[0]`
sits outside the `try:` block of `_extract_version_key`, so payload 0 with
version `""` and no override raises `IndexError`. -/
theorem C3_floor_and_crash (kb : ℕ) (v : String) (o : Option ℚ) (r : ℤ)
    (h : calculate_partition_size kb v o = .ok r) :
    MIN_PARTITION_MB ≤ r ∧ calculate_partition_size 0 "" none = .error .indexError := by
  refine ⟨?_, rfl⟩
  rcases o with _ | b
  · cases hk : extract_version_key v with
    | error e => simp [calculate_partition_size, hk] at h
    | ok key =>
      simp only [calculate_partition_size, hk, Except.ok.injEq] at h
      exact h ▸ calc_with_buffer_mb_min_le _ _
  · simp only [calculate_partition_size, Except.ok.injEq] at h
    exact h ▸ calc_with_buffer_mb_min_le _ _

/-- Witness for C3 at payload 0, version `"x"`, no override. -/
theorem C3_floor_and_crash_witness :
    MIN_PARTITION_MB ≤ MIN_PARTITION_MB ∧
    calculate_partition_size 0 "" none = .error .indexError :=
  C3_floor_and_crash 0 "x" none MIN_PARTITION_MB evalCalc_zero_x

/-- C8 counterexample: the claim says the key of `"9"` is the first
component `"9"` (it parses as an integer), but `_extract_version_key`
returns the integer path only for components at least 11 and yields the
`"11"` default here. -/
theorem C8_counterexample :
    extract_version_key "9" = .ok "11" ∧
    (Except.ok "11" : Except PyError String) ≠ .ok "9" :=
  ⟨rfl, by decide⟩

/-- C8 amended: normalization takes the token before the first space, then
before the first hyphen, splits on `.`; `"10"` with a second component gives
`"10.<second>"`; otherwise the first component is the key only when it
parses as an integer that is at least 11, anything else defaulting to
`"11"`; whitespace-only input raises `IndexError`. The stated examples all
hold. -/
theorem C8_amended_normalization :
    (∀ s, extract_version_key s = version_key_amended s) ∧
    extract_version_key "14.6.1" = .ok "14" ∧
    extract_version_key "14.6.1 Beta 3" = .ok "14" ∧
    extract_version_key "14.0" = .ok "14" ∧
    extract_version_key "10.15.7-RC" = .ok "10.15" := by
  refine ⟨?_, rfl, rfl, rfl, rfl⟩
  intro s
  cases hws : pySplitWs s with
  | nil => simp only [extract_version_key, version_key_amended, hws]
  | cons tok toks =>
    simp only [extract_version_key, version_key_amended, hws]
    cases pySplitChar ((pySplitChar tok '-').headD "") '.' with
    | nil => rfl
    | cons p0 rest =>
      cases rest with
      | nil => simp
      | cons p1 rest' =>
        by_cases h10 : p0 = "10"
        · subst h10
          simp [show ("10" : String) ++ "." = "10." from rfl]
        · simp [h10]

/-- C9: for a fixed version string and override mode, the size is monotone
in the payload, and for a fixed payload and version it is monotone in the
override buffer. -/
theorem C9_monotone (v : String) (o : Option ℚ) (kb₁ kb₂ kb₃ : ℕ) (b₁ b₂ : ℚ)
    (hkb : kb₁ ≤ kb₂) (hb : b₁ ≤ b₂) (r₁ r₂ s₁ s₂ : ℤ)
    (h₁ : calculate_partition_size kb₁ v o = .ok r₁)
    (h₂ : calculate_partition_size kb₂ v o = .ok r₂)
    (h₃ : calculate_partition_size kb₃ v (some b₁) = .ok s₁)
    (h₄ : calculate_partition_size kb₃ v (some b₂) = .ok s₂) :
    r₁ ≤ r₂ ∧ s₁ ≤ s₂ := by
  constructor
  · rcases o with _ | b
    · cases hk : extract_version_key v with
      | error e => simp [calculate_partition_size, hk] at h₁
      | ok key =>
        simp only [calculate_partition_size, hk, Except.ok.injEq] at h₁ h₂
        exact h₁ ▸ h₂ ▸ calc_with_buffer_mb_mono _ _ _ _ hkb le_rfl
    · simp only [calculate_partition_size, Except.ok.injEq] at h₁ h₂
      exact h₁ ▸ h₂ ▸ calc_with_buffer_mb_mono _ _ _ _ hkb le_rfl
  · simp only [calculate_partition_size, Except.ok.injEq] at h₃ h₄
    have : (b₁ : ℚ) * 1024 ≤ b₂ * 1024 := by
      apply mul_le_mul_of_nonneg_right hb (by norm_num)
    exact h₃ ▸ h₄ ▸ calc_with_buffer_mb_mono _ _ _ _ le_rfl this

/-- Witness for C9: payloads 0 and 13 GiB under version `"14.0"`, and
buffers 2 vs 3 GB at payload 15361024 KB. -/
theorem C9_monotone_witness : (MIN_PARTITION_MB : ℤ) ≤ 16431 ∧ (18000 : ℤ) ≤ 19024 :=
  C9_monotone "14.0" none 0 (13 * 1024 * 1024) 15361024 2 3 (by norm_num) (by norm_num)
    MIN_PARTITION_MB 16431 18000 19024
    evalCalc_zero_sonoma evalCalc_13g_sonoma evalCalc_18000 evalCalc_19024

/-- C2: fresh-layout evaluation at the spec's own example. Three installers
whose required size is exactly 18000 MB on a 64 GB device produce a 4-entry
plan (12 diskutil argument strings) with no `DATA_STORE` entry, because the
megabyte value 18000 is emitted with a `G` (gigabyte) suffix and subtracted
from the gigabyte device total (`64 - 54001 < 2`), not interpreted in
megabytes as the claim states — under the claim's own unit reading the
remainder 65536 - 55024 = 10512 MB exceeds 2 GB and a fifth entry was
expected. -/
theorem C2_layout_unit_bug :
    create_multiboot_layout [sonomaInstaller, sonomaInstaller, sonomaInstaller] 64 =
      .ok ["JHFS+", "EFI_SYSTEM", "1G",
           "JHFS+", "INSTALL_Sonoma_14_0", "18000G",
           "JHFS+", "INSTALL_Sonoma_14_0", "18000G",
           "JHFS+", "INSTALL_Sonoma_14_0", "18000G"] ∧
    calculate_partition_size 15361024 "14.0" (some 2) = .ok 18000 ∧
    "DATA_STORE" ∉ ["JHFS+", "EFI_SYSTEM", "1G",
           "JHFS+", "INSTALL_Sonoma_14_0", "18000G",
           "JHFS+", "INSTALL_Sonoma_14_0", "18000G",
           "JHFS+", "INSTALL_Sonoma_14_0", "18000G"] ∧
    ((65536 : ℤ) - (1024 + 3 * 18000) = 10512 ∧ (2 * 1024 : ℤ) < 10512) := by
  have hos : get_os_name "14.0" none = .ok "Sonoma" := rfl
  have hpn : installerPartName "Sonoma" "14.0" = .ok "INSTALL_Sonoma_14_0" := rfl
  have hts : toString (18000 : ℤ) ++ "G" = "18000G" := rfl
  refine ⟨?_, evalCalc_18000, by decide, by norm_num⟩
  simp only [create_multiboot_layout, layoutFold, sonomaInstaller, evalCalc_18000, hos, hpn, hts]
  norm_num

/-- C4: the update planner emits a plain replace action for an installer
requiring 18000 MB against an existing 5 GiB partition; the source has no
capacity comparison and no `CapacityError` notion — the destructive
reformat `replace_existing_partition` is the next thing invoked for a
replace action. -/
theorem C4_no_replace_capacity_guard :
    plan_update_actions sonomaDrive.existing_installers [sonomaInstaller] =
      .ok [.replace sonomaInstaller "disk2s2"] ∧
    calculate_partition_size 15361024 "14.0" (some 2) = .ok 18000 ∧
    sonomaDrive.existing_partitions =
      [⟨"Install macOS Sonoma", "Sonoma", "disk2s2", 5368709120⟩] ∧
    (5368709120 : ℤ) < 18000 * 2 ^ 20 :=
  ⟨rfl, evalCalc_18000, rfl, by norm_num⟩

/-- C5 counterexample: the existing partition `"Install macOS Sierra"`
normalizes to `"Sierra"`, the candidate normalizes to `"High Sierra"`, and
`"Sierra"` is contained in `"High Sierra"` — so under the claim's
"containment in either direction" rule this must be a replace — yet the
planner, which only tests whether the candidate name is contained in an
existing key, emits an add-to-free-space action. -/
theorem C5_counterexample :
    sierraDrive.existing_installers = [("Sierra", "disk2s2"), ("Install macOS Sierra", "disk2s2")] ∧
    get_os_name highSierraInstaller.version (some highSierraInstaller.name) = .ok "High Sierra" ∧
    pyIn "Sierra" "High Sierra" = true ∧
    plan_update_actions sierraDrive.existing_installers [highSierraInstaller] =
      .ok [.add highSierraInstaller] :=
  ⟨rfl, rfl, rfl, rfl⟩

/-- C5 amended: for every installer in the batch (independently, in order),
the planner emits `ReplaceExisting` exactly when the normalized OS name is
an exact key of the existing-installer map, or, failing that, when it is a
substring of some key (one direction only); the target is the exact hit,
else the first containing key's identifier; otherwise the action is
`AddToFreeSpace`. -/
theorem C5_amended_matching (m : List (String × String)) (insts : List Installer)
    (acts : List PlannedAction) (i : ℕ) (inst : Installer) (os : String)
    (hplan : plan_update_actions m insts = .ok acts)
    (hi : insts.get? i = some inst)
    (hos : get_os_name inst.version (some inst.name) = .ok os) :
    acts.get? i = some
      (match dictGet m os with
       | some pid => PlannedAction.replace inst pid
       | none =>
         match m.find? (fun q => pyIn os q.1) with
         | some p => PlannedAction.replace inst p.2
         | none => PlannedAction.add inst) := by
  induction insts generalizing i acts with
  | nil => simp at hi
  | cons a rest ih =>
    cases hg : get_os_name a.version (some a.name) with
    | error e => simp [plan_update_actions, hg] at hplan
    | ok osa =>
      cases hr : plan_update_actions m rest with
      | error e => simp [plan_update_actions, hg, hr] at hplan
      | ok racts =>
        simp only [plan_update_actions, hg, hr, Except.ok.injEq] at hplan
        subst hplan
        cases i with
        | zero =>
          simp only [List.get?] at hi
          injection hi with hi
          subst hi
          rw [hg] at hos
          injection hos with hos
          subst hos
          simp only [List.get?, Option.some.injEq, matchInstaller]
          cases hd : dictGet m osa with
          | some pid => simp [hd]
          | none =>
            cases hf : m.find? (fun q => pyIn osa q.1) with
            | some p => simp [hd, hf]
            | none => simp [hd, hf]
        | succ j =>
          simp only [List.get?] at hi ⊢
          exact ih racts j hr hi

/-- Witness for C5 at the spec's Sonoma example: existing partition
`"Install macOS Sonoma"`, candidate normalizing to `"Sonoma"`, planned
action `ReplaceExisting` at `disk2s2`. -/
theorem C5_amended_matching_witness :
    [PlannedAction.replace sonomaInstaller "disk2s2"].get? 0 =
      some (PlannedAction.replace sonomaInstaller "disk2s2") :=
  C5_amended_matching sonomaDrive.existing_installers [sonomaInstaller]
    [.replace sonomaInstaller "disk2s2"] 0 sonomaInstaller "Sonoma" rfl rfl rfl

/-- C6 counterexample: a batch of two installers whose first `diskutil`
call fails. `split_partition` returns `None` after the first attempt — the
second installer is never processed and the batch result carries no
per-installer outcomes; `add_partition_to_free_space` behaves the same. -/
theorem C6_counterexample :
    split_partition "disk2s4" [sonomaInstaller, highSierraInstaller] [false, true]
      [some dataDrive] = .ok ([⟨"disk2s4", "INSTALL_Sonoma_14_0"⟩], none) ∧
    add_partition_to_free_space [sonomaInstaller, highSierraInstaller] [false, true] =
      .ok none :=
  ⟨rfl, rfl⟩

/-- A failed split attempt at any position of the batch aborts
`split_partition`: the Python return value is `None`, the attempt trace
stops at the failed attempt (remaining installers are never attempted),
and every earlier attempt of the run had succeeded — so the partitions
those earlier attempts created go unreported. -/
theorem split_partition_abort (insts : List Installer) (cur : String)
    (oks : List Bool) (reads : List (Option DriveInfo))
    (tr : List SplitAttempt) (res : Option (List NewPartition)) (j : ℕ)
    (h : split_partition cur insts oks reads = .ok (tr, res))
    (hj : j < tr.length) (hfail : ¬ oks.get? j = some true) :
    res = none ∧ tr.length = j + 1 ∧ ∀ i, i < j → oks.get? i = some true := by
  induction insts generalizing cur oks reads tr res j with
  | nil =>
    rw [split_partition.eq_def] at h
    simp at h
    obtain ⟨h1, -⟩ := h
    subst h1
    simp at hj
  | cons inst rest ih =>
    rw [split_partition.eq_def] at h
    cases hc : calculate_partition_size inst.size_kb inst.version inst.buffer_gb with
    | error e => simp [hc] at h
    | ok sz =>
      cases hg : get_os_name inst.version (some inst.name) with
      | error e => simp [hc, hg] at h
      | ok osn =>
        cases hp : installerPartName osn inst.version with
        | error e => simp [hc, hg, hp] at h
        | ok pn =>
          cases oks with
          | nil =>
            simp [hc, hg, hp] at h
            obtain ⟨h1, h2⟩ := h
            subst h1
            simp only [List.length_cons, List.length_nil] at hj ⊢
            have hj0 : j = 0 := by omega
            subst hj0
            refine ⟨?_, rfl, ?_⟩
            · first | exact h2 | exact h2.symm
            · intro i hi
              omega
          | cons ok oks' =>
            cases ok with
            | false =>
              simp [hc, hg, hp] at h
              obtain ⟨h1, h2⟩ := h
              subst h1
              simp only [List.length_cons, List.length_nil] at hj ⊢
              have hj0 : j = 0 := by omega
              subst hj0
              refine ⟨?_, rfl, ?_⟩
              · first | exact h2 | exact h2.symm
              · intro i hi
                omega
            | true =>
              cases rest with
              | nil =>
                simp [hc, hg, hp] at h
                obtain ⟨h1, -⟩ := h
                subst h1
                simp only [List.length_cons, List.length_nil] at hj
                have hj0 : j = 0 := by omega
                subst hj0
                exact absurd rfl hfail
              | cons inst₂ rest₂ =>
                cases reads with
                | nil =>
                  simp [hc, hg, hp] at h
                  obtain ⟨h1, -⟩ := h
                  subst h1
                  simp only [List.length_cons, List.length_nil] at hj
                  have hj0 : j = 0 := by omega
                  subst hj0
                  exact absurd rfl hfail
                | cons r reads' =>
                  cases r with
                  | none =>
                    simp [hc, hg, hp] at h
                    obtain ⟨h1, -⟩ := h
                    subst h1
                    simp only [List.length_cons, List.length_nil] at hj
                    have hj0 : j = 0 := by omega
                    subst hj0
                    exact absurd rfl hfail
                  | some st =>
                    cases hdp : st.data_partition with
                    | none =>
                      simp [hc, hg, hp, hdp] at h
                      obtain ⟨h1, -⟩ := h
                      subst h1
                      simp only [List.length_cons, List.length_nil] at hj
                      have hj0 : j = 0 := by omega
                      subst hj0
                      exact absurd rfl hfail
                    | some dp =>
                      cases hrec : split_partition dp.id (inst₂ :: rest₂) oks' reads' with
                      | error e => simp [hc, hg, hp, hdp, hrec] at h
                      | ok pr =>
                        obtain ⟨tr', res'⟩ := pr
                        simp [hc, hg, hp, hdp, hrec] at h
                        obtain ⟨h1, h2⟩ := h
                        subst h1
                        cases j with
                        | zero => exact absurd rfl hfail
                        | succ j' =>
                          simp only [List.length_cons] at hj
                          have hj' : j' < tr'.length := by omega
                          have hfail' : ¬ oks'.get? j' = some true := by simpa using hfail
                          obtain ⟨ha, hb, hsucc⟩ :=
                            ih dp.id oks' reads' tr' res' j' hrec hj' hfail'
                          have hres : res = Option.map
                              (fun l => (⟨pn, inst⟩ : NewPartition) :: l) res' := h2.symm
                          refine ⟨?_, ?_, ?_⟩
                          · rw [hres, ha]
                            rfl
                          · simp only [List.length_cons, hb]
                          · intro i hi
                            cases i with
                            | zero => rfl
                            | succ i' =>
                              simp only [List.get?]
                              exact hsucc i' (by omega)

/-- A failed `addPartition` call after any run of successful ones aborts
`add_partition_to_free_space` with `None`, discarding the earlier
successes' records. -/
theorem add_partition_abort (insts₁ : List Installer) (inst₂ : Installer)
    (rest₂ : List Installer) (oks₁ oks₂ : List Bool)
    (res₂ : Option (List NewPartition))
    (hlen : oks₁.length = insts₁.length) (hall : ∀ b ∈ oks₁, b = true)
    (h : add_partition_to_free_space (insts₁ ++ inst₂ :: rest₂)
      (oks₁ ++ false :: oks₂) = .ok res₂) :
    res₂ = none := by
  induction insts₁ generalizing oks₁ res₂ with
  | nil =>
    have h0 : oks₁ = [] := List.length_eq_zero.mp (by simpa using hlen)
    subst h0
    simp only [List.nil_append] at h
    cases hc : calculate_partition_size inst₂.size_kb inst₂.version inst₂.buffer_gb with
    | error e => simp [add_partition_to_free_space, hc] at h
    | ok sz =>
      cases hg : get_os_name inst₂.version (some inst₂.name) with
      | error e => simp [add_partition_to_free_space, hc, hg] at h
      | ok osn =>
        cases hp : installerPartName osn inst₂.version with
        | error e => simp [add_partition_to_free_space, hc, hg, hp] at h
        | ok pn =>
          simp [add_partition_to_free_space, hc, hg, hp] at h
          first | exact h | exact h.symm
  | cons a insts₁ ih =>
    cases oks₁ with
    | nil => simp at hlen
    | cons b oks₁ =>
      have hb : b = true := hall b (List.mem_cons_self ..)
      subst hb
      simp only [List.cons_append] at h
      cases hc : calculate_partition_size a.size_kb a.version a.buffer_gb with
      | error e => simp [add_partition_to_free_space, hc] at h
      | ok sz =>
        cases hg : get_os_name a.version (some a.name) with
        | error e => simp [add_partition_to_free_space, hc, hg] at h
        | ok osn =>
          cases hp : installerPartName osn a.version with
          | error e => simp [add_partition_to_free_space, hc, hg, hp] at h
          | ok pn =>
            cases hrec : add_partition_to_free_space (insts₁ ++ inst₂ :: rest₂)
                (oks₁ ++ false :: oks₂) with
            | error e => simp [add_partition_to_free_space, hc, hg, hp, hrec] at h
            | ok r =>
              simp [add_partition_to_free_space, hc, hg, hp, hrec] at h
              have hr : r = none :=
                ih oks₁ r (by simpa using hlen)
                  (fun x hx => hall x (List.mem_cons_of_mem _ hx)) hrec
              subst hr
              simp at h
              first | exact h | exact h.symm

/-- C6 amended: when any action of a multi-installer batch fails — at any
position, not only the first — `split_partition` returns `None`: the
attempt trace stops at the failed attempt, the remaining installers are
never attempted, every earlier attempt had succeeded, and the partitions
those earlier successes created are not reported (the return value is
`None`, not a partial outcome list); `add_partition_to_free_space` likewise
returns `None` after any run of successes followed by a failure.
Per-installer continuation exists only in the caller (`run_update_thread`),
which invokes these functions one installer at a time and `continue`s on
failure. -/
theorem C6_amended_abort
    (cur : String) (insts : List Installer) (oks : List Bool)
    (reads : List (Option DriveInfo))
    (tr : List SplitAttempt) (res : Option (List NewPartition)) (j : ℕ)
    (h : split_partition cur insts oks reads = .ok (tr, res))
    (hj : j < tr.length) (hfail : ¬ oks.get? j = some true)
    (insts₁ : List Installer) (inst₂ : Installer) (rest₂ : List Installer)
    (oks₁ oks₂ : List Bool) (res₂ : Option (List NewPartition))
    (hlen : oks₁.length = insts₁.length) (hall : ∀ b ∈ oks₁, b = true)
    (h₂ : add_partition_to_free_space (insts₁ ++ inst₂ :: rest₂)
      (oks₁ ++ false :: oks₂) = .ok res₂) :
    res = none ∧ tr.length = j + 1 ∧ (∀ i, i < j → oks.get? i = some true) ∧
      res₂ = none := by
  obtain ⟨h1, h2, h3⟩ := split_partition_abort insts cur oks reads tr res j h hj hfail
  exact ⟨h1, h2, h3, add_partition_abort insts₁ inst₂ rest₂ oks₁ oks₂ res₂ hlen hall h₂⟩

/-- Witness for C6 at a three-installer batch whose second split fails
(`oks = [true, false]`): the first split succeeded and carved
`INSTALL_Sonoma_14_0`, yet the result is `None` with only two attempts —
the third installer was never attempted and the first success goes
unreported; the add batch `[true, false]` likewise returns `None`. -/
theorem C6_amended_abort_witness :
    (none : Option (List NewPartition)) = none ∧
    ([(⟨"disk2s5", "INSTALL_Sonoma_14_0"⟩ : SplitAttempt),
      ⟨"disk2s9", "INSTALL_High Sierra_10_13_6"⟩] : List SplitAttempt).length = 1 + 1 ∧
    ([true, false] : List Bool).get? 0 = some true ∧
    (none : Option (List NewPartition)) = none := by
  have h := C6_amended_abort "disk2s5"
    [sonomaInstaller, highSierraInstaller, sonomaInstaller] [true, false] [some dataDrive]
    [⟨"disk2s5", "INSTALL_Sonoma_14_0"⟩, ⟨"disk2s9", "INSTALL_High Sierra_10_13_6"⟩]
    none 1 rfl (by decide) (by decide)
    [sonomaInstaller] highSierraInstaller [sonomaInstaller] [true] [] none rfl
    (by decide) rfl
  exact ⟨h.1, h.2.1, h.2.2.1 0 (by decide), h.2.2.2⟩

/-- Every nonempty trace of `split_partition` starts with an attempt whose
target is the partition identifier the call was given. -/
theorem split_partition_head_target (cur : String) (insts : List Installer)
    (oks : List Bool) (reads : List (Option DriveInfo))
    (tr : List SplitAttempt) (res : Option (List NewPartition)) (step : SplitAttempt)
    (h : split_partition cur insts oks reads = .ok (tr, res))
    (hstep : tr.get? 0 = some step) :
    step.target = cur := by
  rw [split_partition.eq_def] at h
  cases insts with
  | nil =>
    simp at h
    obtain ⟨h1, -⟩ := h
    subst h1
    simp at hstep
  | cons inst rest =>
    cases hc : calculate_partition_size inst.size_kb inst.version inst.buffer_gb with
    | error e => simp [hc] at h
    | ok sz =>
      cases hg : get_os_name inst.version (some inst.name) with
      | error e => simp [hc, hg] at h
      | ok osn =>
        cases hp : installerPartName osn inst.version with
        | error e => simp [hc, hg, hp] at h
        | ok pn =>
          cases oks with
          | nil =>
            simp [hc, hg, hp] at h
            obtain ⟨h1, -⟩ := h
            subst h1
            simp at hstep
            subst hstep
            rfl
          | cons ok oks' =>
            cases ok with
            | false =>
              simp [hc, hg, hp] at h
              obtain ⟨h1, -⟩ := h
              subst h1
              simp at hstep
              subst hstep
              rfl
            | true =>
              cases rest with
              | nil =>
                simp [hc, hg, hp] at h
                obtain ⟨h1, -⟩ := h
                subst h1
                simp at hstep
                subst hstep
                rfl
              | cons inst₂ rest₂ =>
                cases reads with
                | nil =>
                  simp [hc, hg, hp] at h
                  obtain ⟨h1, -⟩ := h
                  subst h1
                  simp at hstep
                  subst hstep
                  rfl
                | cons r reads' =>
                  cases r with
                  | none =>
                    simp [hc, hg, hp] at h
                    obtain ⟨h1, -⟩ := h
                    subst h1
                    simp at hstep
                    subst hstep
                    rfl
                  | some st =>
                    cases hdp : st.data_partition with
                    | none =>
                      simp [hc, hg, hp, hdp] at h
                      obtain ⟨h1, -⟩ := h
                      subst h1
                      simp at hstep
                      subst hstep
                      rfl
                    | some dp =>
                      cases hrec : split_partition dp.id (inst₂ :: rest₂) oks' reads' with
                      | error e => simp [hc, hg, hp, hdp, hrec] at h
                      | ok pr =>
                        obtain ⟨tr', res'⟩ := pr
                        simp [hc, hg, hp, hdp, hrec] at h
                        obtain ⟨h1, -⟩ := h
                        subst h1
                        simp at hstep
                        subst hstep
                        rfl

/-- C7: in every successful run of `split_partition`, the target of the
(i+2)-nd split attempt is exactly the data-partition identifier of the
structure returned by the i-th `get_drive_structure` re-read — each split
after the first targets a freshly re-resolved identifier, never one
computed before the preceding split. -/
theorem C7_fresh_data_target (insts : List Installer) (cur : String)
    (oks : List Bool) (reads : List (Option DriveInfo))
    (tr : List SplitAttempt) (res : Option (List NewPartition))
    (i : ℕ) (step : SplitAttempt)
    (h : split_partition cur insts oks reads = .ok (tr, res))
    (hstep : tr.get? (i + 1) = some step) :
    ((reads.get? i).bind (fun r => r.bind (fun st => st.data_partition.map (·.id)))) =
      some step.target := by
  induction insts generalizing cur oks reads tr res i with
  | nil =>
    rw [split_partition.eq_def] at h
    simp at h
    obtain ⟨h1, -⟩ := h
    subst h1
    simp at hstep
  | cons inst rest ih =>
    rw [split_partition.eq_def] at h
    cases hc : calculate_partition_size inst.size_kb inst.version inst.buffer_gb with
    | error e => simp [hc] at h
    | ok sz =>
      cases hg : get_os_name inst.version (some inst.name) with
      | error e => simp [hc, hg] at h
      | ok osn =>
        cases hp : installerPartName osn inst.version with
        | error e => simp [hc, hg, hp] at h
        | ok pn =>
          cases oks with
          | nil =>
            simp [hc, hg, hp] at h
            obtain ⟨h1, -⟩ := h
            subst h1
            simp at hstep
          | cons ok oks' =>
            cases ok with
            | false =>
              simp [hc, hg, hp] at h
              obtain ⟨h1, -⟩ := h
              subst h1
              simp at hstep
            | true =>
              cases rest with
              | nil =>
                simp [hc, hg, hp] at h
                obtain ⟨h1, -⟩ := h
                subst h1
                simp at hstep
              | cons inst₂ rest₂ =>
                cases reads with
                | nil =>
                  simp [hc, hg, hp] at h
                  obtain ⟨h1, -⟩ := h
                  subst h1
                  simp at hstep
                | cons r reads' =>
                  cases r with
                  | none =>
                    simp [hc, hg, hp] at h
                    obtain ⟨h1, -⟩ := h
                    subst h1
                    simp at hstep
                  | some st =>
                    cases hdp : st.data_partition with
                    | none =>
                      simp [hc, hg, hp, hdp] at h
                      obtain ⟨h1, -⟩ := h
                      subst h1
                      simp at hstep
                    | some dp =>
                      cases hrec : split_partition dp.id (inst₂ :: rest₂) oks' reads' with
                      | error e => simp [hc, hg, hp, hdp, hrec] at h
                      | ok pr =>
                        obtain ⟨tr', res'⟩ := pr
                        simp [hc, hg, hp, hdp, hrec] at h
                        obtain ⟨h1, -⟩ := h
                        subst h1
                        cases i with
                        | zero =>
                          simp only [List.get?] at hstep
                          have hht := split_partition_head_target dp.id (inst₂ :: rest₂)
                            oks' reads' tr' res' step hrec hstep
                          simp [hdp, hht]
                        | succ j =>
                          simp only [List.get?] at hstep
                          simpa using ih dp.id oks' reads' tr' res' j hrec hstep

/-- Lookup after a Python-dict assignment. -/
theorem dictGet_dictSet (m : List (String × String)) (k v k' : String) :
    dictGet (dictSet m k v) k' = if k' = k then some v else dictGet m k' := by
  induction m with
  | nil =>
    by_cases h : k' = k
    · simp [dictSet, dictGet, h]
    · simp [dictSet, dictGet, h, Ne.symm h]
  | cons p m ih =>
    simp only [dictSet]
    by_cases hpk : p.1 = k
    · rw [if_pos hpk]
      by_cases hk' : k' = k
      · simp [dictGet, hk']
      · have hkk : ¬ k = k' := Ne.symm hk'
        have hp' : ¬ p.1 = k' := by rw [hpk]; exact hkk
        simp [dictGet, hk', hp', hkk]
    · rw [if_neg hpk]
      by_cases hq : p.1 = k'
      · have hk' : ¬ k' = k := fun hh => hpk (by rw [hq, hh])
        simp [dictGet, hq, hk']
      · simp [dictGet, hq, ih]

/-- One scan step: the `DATA_STORE` branch. -/
theorem scanPartition_data_store (info : DriveInfo) (u : ℕ) (p : PlistPartition)
    (hd : p.volumeName = "DATA_STORE") :
    scanPartition (info, u) p =
      ({ info with data_partition := some ⟨p.deviceIdentifier, p.size⟩ }, u + p.size) := by
  simp [scanPartition, hd]

/-- One scan step: the installer branch. -/
theorem scanPartition_installer (info : DriveInfo) (u : ℕ) (p : PlistPartition)
    (hd : ¬ p.volumeName = "DATA_STORE") (hi : isInstallerVolume p.volumeName = true) :
    scanPartition (info, u) p =
      ({ info with
          existing_installers :=
            dictSet (dictSet info.existing_installers (cleanVolumeName p.volumeName)
              p.deviceIdentifier) p.volumeName p.deviceIdentifier,
          existing_partitions := info.existing_partitions ++ [partitionEntry p] },
        u + p.size) := by
  simp [scanPartition, hd, hi, partitionEntry]

/-- One scan step: the ignored branch. -/
theorem scanPartition_other (info : DriveInfo) (u : ℕ) (p : PlistPartition)
    (hd : ¬ p.volumeName = "DATA_STORE") (hi : ¬ isInstallerVolume p.volumeName = true) :
    scanPartition (info, u) p = (info, u + p.size) := by
  simp [scanPartition, hd, hi]

/-- The partition scan appends exactly the classified installer entries. -/
theorem foldParts_parts (ps : List PlistPartition) (info : DriveInfo) (u : ℕ) :
    ((ps.foldl scanPartition (info, u)).1).existing_partitions =
      info.existing_partitions ++ installerEntries ps := by
  induction ps generalizing info u with
  | nil => simp [installerEntries]
  | cons p ps ih =>
    rw [List.foldl_cons]
    by_cases hd : p.volumeName = "DATA_STORE"
    · rw [scanPartition_data_store info u p hd, ih]
      simp [installerEntries, isClassifiedInstaller, hd]
    · by_cases hi : isInstallerVolume p.volumeName = true
      · rw [scanPartition_installer info u p hd hi, ih]
        simp [installerEntries, isClassifiedInstaller, hd, hi]
      · rw [scanPartition_other info u p hd hi, ih]
        simp [installerEntries, isClassifiedInstaller, hd, hi]

/-- The partition scan's name-to-identifier dict: the last classified entry
carrying a key wins; keys carried by no entry fall through to the initial
dict. -/
theorem foldParts_map_get (ps : List PlistPartition) (info : DriveInfo) (u : ℕ) (k : String) :
    dictGet ((ps.foldl scanPartition (info, u)).1).existing_installers k =
      match (installerEntries ps).reverse.find? (entryKeyMatch k) with
      | some q => some q.id
      | none => dictGet info.existing_installers k := by
  induction ps generalizing info u with
  | nil => simp [installerEntries]
  | cons p ps ih =>
    rw [List.foldl_cons]
    by_cases hd : p.volumeName = "DATA_STORE"
    · rw [scanPartition_data_store info u p hd, ih]
      simp [installerEntries, isClassifiedInstaller, hd]
    · by_cases hi : isInstallerVolume p.volumeName = true
      · rw [scanPartition_installer info u p hd hi, ih]
        have hent : installerEntries (p :: ps) = partitionEntry p :: installerEntries ps := by
          simp [installerEntries, isClassifiedInstaller, hd, hi]
        rw [hent, List.reverse_cons, List.find?_append]
        cases hfind : (installerEntries ps).reverse.find? (entryKeyMatch k) with
        | some q => simp [Option.or]
        | none =>
          simp only [Option.or]
          rw [dictGet_dictSet, dictGet_dictSet]
          by_cases hraw : k = p.volumeName
          · have hb2 : (p.volumeName == k) = true := by simp [hraw]
            simp [List.find?, entryKeyMatch, partitionEntry, hraw, hb2]
          · have hb2 : (p.volumeName == k) = false := by
              simp [beq_eq_false_iff_ne]
              exact Ne.symm hraw
            by_cases hclean : k = cleanVolumeName p.volumeName
            · have hb1 : (cleanVolumeName p.volumeName == k) = true := by simp [hclean]
              simp [List.find?, entryKeyMatch, partitionEntry, hraw, hclean, hb1, hb2]
            · have hb1 : (cleanVolumeName p.volumeName == k) = false := by
                simp [beq_eq_false_iff_ne]
                exact Ne.symm hclean
              simp [List.find?, entryKeyMatch, partitionEntry, hraw, hclean, hb1, hb2]
      · rw [scanPartition_other info u p hd hi, ih]
        simp [installerEntries, isClassifiedInstaller, hd, hi]

/-- The partition scan only records a `DATA_STORE`-named partition as the
data partition. -/
theorem foldParts_data (ps : List PlistPartition) (info : DriveInfo) (u : ℕ) :
    ((ps.foldl scanPartition (info, u)).1).data_partition = info.data_partition ∨
    ∃ p ∈ ps, p.volumeName = "DATA_STORE" ∧
      ((ps.foldl scanPartition (info, u)).1).data_partition =
        some ⟨p.deviceIdentifier, p.size⟩ := by
  induction ps generalizing info u with
  | nil => exact Or.inl rfl
  | cons p ps ih =>
    rw [List.foldl_cons]
    by_cases hd : p.volumeName = "DATA_STORE"
    · rw [scanPartition_data_store info u p hd]
      rcases ih { info with data_partition := some ⟨p.deviceIdentifier, p.size⟩ } (u + p.size) with h | ⟨p', hp', hd', h⟩
      · exact Or.inr ⟨p, List.mem_cons_self .., hd, h⟩
      · exact Or.inr ⟨p', List.mem_cons_of_mem _ hp', hd', h⟩
    · by_cases hi : isInstallerVolume p.volumeName = true
      · rw [scanPartition_installer info u p hd hi]
        rcases ih _ (u + p.size) with h | ⟨p', hp', hd', h⟩
        · exact Or.inl h
        · exact Or.inr ⟨p', List.mem_cons_of_mem _ hp', hd', h⟩
      · rw [scanPartition_other info u p hd hi]
        rcases ih info (u + p.size) with h | ⟨p', hp', hd', h⟩
        · exact Or.inl h
        · exact Or.inr ⟨p', List.mem_cons_of_mem _ hp', hd', h⟩

/-- `scanDisk` appends exactly the classified installer entries. -/
theorem scanDisk_parts (info : DriveInfo) (e : PlistDisk) :
    (scanDisk info e).existing_partitions =
      info.existing_partitions ++ installerEntries e.partitions := by
  simp [scanDisk, foldParts_parts]

/-- `scanDisk`'s effect on the installer dict. -/
theorem scanDisk_map_get (info : DriveInfo) (e : PlistDisk) (k : String) :
    dictGet (scanDisk info e).existing_installers k =
      match (installerEntries e.partitions).reverse.find? (entryKeyMatch k) with
      | some q => some q.id
      | none => dictGet info.existing_installers k := by
  simp [scanDisk, foldParts_map_get]

/-- `scanDisk` only records a `DATA_STORE`-named partition as the data
partition. -/
theorem scanDisk_data (info : DriveInfo) (e : PlistDisk) :
    (scanDisk info e).data_partition = info.data_partition ∨
    ∃ p ∈ e.partitions, p.volumeName = "DATA_STORE" ∧
      (scanDisk info e).data_partition = some ⟨p.deviceIdentifier, p.size⟩ := by
  have h := foldParts_data e.partitions { info with disk_size := e.size } 0
  simpa [scanDisk] using h

/-- Disk-level lifting of `foldParts_parts`. -/
theorem foldDisks_parts (disk_id : String) (l : List PlistDisk) (info : DriveInfo) :
    (l.foldl (scanIfMatch disk_id) info).existing_partitions =
      info.existing_partitions ++ allInstallerEntries disk_id l := by
  induction l generalizing info with
  | nil => simp [allInstallerEntries]
  | cons e l ih =>
    rw [List.foldl_cons]
    by_cases he : e.deviceIdentifier = disk_id
    · rw [show scanIfMatch disk_id info e = scanDisk info e from by simp [scanIfMatch, he]]
      rw [ih, scanDisk_parts]
      have hsplit : allInstallerEntries disk_id (e :: l) =
          installerEntries e.partitions ++ allInstallerEntries disk_id l := by
        simp [allInstallerEntries, he]
      rw [hsplit, List.append_assoc]
    · rw [show scanIfMatch disk_id info e = info from by simp [scanIfMatch, he]]
      rw [ih]
      have hsplit : allInstallerEntries disk_id (e :: l) = allInstallerEntries disk_id l := by
        have hb : (e.deviceIdentifier == disk_id) = false := beq_eq_false_iff_ne.mpr he
        simp [allInstallerEntries, hb]
      rw [hsplit]

/-- Disk-level lifting of `foldParts_map_get`. -/
theorem foldDisks_map_get (disk_id : String) (l : List PlistDisk) (info : DriveInfo)
    (k : String) :
    dictGet ((l.foldl (scanIfMatch disk_id) info).existing_installers) k =
      match (allInstallerEntries disk_id l).reverse.find? (entryKeyMatch k) with
      | some q => some q.id
      | none => dictGet info.existing_installers k := by
  induction l generalizing info with
  | nil => simp [allInstallerEntries]
  | cons e l ih =>
    rw [List.foldl_cons]
    by_cases he : e.deviceIdentifier = disk_id
    · rw [show scanIfMatch disk_id info e = scanDisk info e from by simp [scanIfMatch, he]]
      rw [ih]
      have hsplit : allInstallerEntries disk_id (e :: l) =
          installerEntries e.partitions ++ allInstallerEntries disk_id l := by
        simp [allInstallerEntries, he]
      rw [hsplit, List.reverse_append, List.find?_append]
      cases hfind : (allInstallerEntries disk_id l).reverse.find? (entryKeyMatch k) with
      | some q => simp [Option.or]
      | none =>
        simp only [Option.or]
        exact scanDisk_map_get info e k
    · rw [show scanIfMatch disk_id info e = info from by simp [scanIfMatch, he]]
      rw [ih]
      have hsplit : allInstallerEntries disk_id (e :: l) = allInstallerEntries disk_id l := by
        have hb : (e.deviceIdentifier == disk_id) = false := beq_eq_false_iff_ne.mpr he
        simp [allInstallerEntries, hb]
      rw [hsplit]

/-- Disk-level lifting of `foldParts_data`. -/
theorem foldDisks_data (disk_id : String) (l : List PlistDisk) (info : DriveInfo) :
    (l.foldl (scanIfMatch disk_id) info).data_partition = info.data_partition ∨
    ∃ e ∈ l, e.deviceIdentifier = disk_id ∧
      ∃ p ∈ e.partitions, p.volumeName = "DATA_STORE" ∧
        (l.foldl (scanIfMatch disk_id) info).data_partition =
          some ⟨p.deviceIdentifier, p.size⟩ := by
  induction l generalizing info with
  | nil => exact Or.inl rfl
  | cons e l ih =>
    rw [List.foldl_cons]
    by_cases he : e.deviceIdentifier = disk_id
    · rw [show scanIfMatch disk_id info e = scanDisk info e from by simp [scanIfMatch, he]]
      rcases ih (scanDisk info e) with h | ⟨e', he', hid, p, hp, hds, h⟩
      · rcases scanDisk_data info e with h2 | ⟨p, hp, hds, h2⟩
        · exact Or.inl (h.trans h2)
        · exact Or.inr ⟨e, List.mem_cons_self .., he, p, hp, hds, h.trans h2⟩
      · exact Or.inr ⟨e', List.mem_cons_of_mem _ he', hid, p, hp, hds, h⟩
    · rw [show scanIfMatch disk_id info e = info from by simp [scanIfMatch, he]]
      rcases ih info with h | ⟨e', he', hid, p, hp, hds, h⟩
      · exact Or.inl h
      · exact Or.inr ⟨e', List.mem_cons_of_mem _ he', hid, p, hp, hds, h⟩

/-- The partition detail list of a drive structure is exactly the ordered
list of classified installer entries. -/
theorem drive_parts (disk_id : String) (allDisks : List PlistDisk) :
    (get_drive_structure disk_id allDisks).existing_partitions =
      allInstallerEntries disk_id allDisks := by
  have h := foldDisks_parts disk_id allDisks ⟨none, [], [], 0, 0⟩
  simpa [get_drive_structure] using h

/-- The installer dict of a drive structure: look up the last entry (in scan
order) carrying the key. -/
theorem drive_map_get (disk_id : String) (allDisks : List PlistDisk) (k : String) :
    dictGet (get_drive_structure disk_id allDisks).existing_installers k =
      ((allInstallerEntries disk_id allDisks).reverse.find? (entryKeyMatch k)).map (·.id) := by
  have h := foldDisks_map_get disk_id allDisks ⟨none, [], [], 0, 0⟩ k
  rw [get_drive_structure, h]
  cases (allInstallerEntries disk_id allDisks).reverse.find? (entryKeyMatch k) with
  | some q => rfl
  | none => rfl

/-- Membership in the per-disk installer entries. -/
theorem mem_installerEntries {q : ExistingPartition} {ps : List PlistPartition} :
    q ∈ installerEntries ps ↔
      ∃ p ∈ ps, ¬ p.volumeName = "DATA_STORE" ∧ isInstallerVolume p.volumeName = true ∧
        q = partitionEntry p := by
  simp only [installerEntries, List.mem_map, List.mem_filter, isClassifiedInstaller,
    Bool.and_eq_true, Bool.not_eq_true', beq_eq_false_iff_ne]
  constructor
  · rintro ⟨p, ⟨hp, hnd, hi⟩, rfl⟩
    exact ⟨p, hp, hnd, hi, rfl⟩
  · rintro ⟨p, hp, hnd, hi, rfl⟩
    exact ⟨p, ⟨hp, hnd, hi⟩, rfl⟩

/-- Membership in the installer entries of a whole listing. -/
theorem mem_allInstallerEntries {q : ExistingPartition} {disk_id : String}
    {allDisks : List PlistDisk} :
    q ∈ allInstallerEntries disk_id allDisks ↔
      ∃ e ∈ allDisks, e.deviceIdentifier = disk_id ∧ q ∈ installerEntries e.partitions := by
  simp only [allInstallerEntries, List.mem_flatMap, List.mem_filter, beq_iff_eq]
  constructor
  · rintro ⟨e, ⟨he, hid⟩, hq⟩
    exact ⟨e, he, hid, hq⟩
  · rintro ⟨e, he, hid, hq⟩
    exact ⟨e, ⟨he, hid⟩, hq⟩

/-- C10 counterexample: two installer partitions whose clean names collide.
`INSTALL_Sonoma` (disk2s2) is in `existing_partitions` with clean name
`"Sonoma"`, but the later `Install macOS Sonoma` (disk2s3) overwrote the
`"Sonoma"` dict key, so that partition's clean-name key does not map to its
own identifier — refuting the claim that every classified partition's raw
and clean keys both map to that partition's identifier. -/
theorem C10_counterexample :
    dupNameDrive.existing_partitions.get? 0 =
      some ⟨"INSTALL_Sonoma", "Sonoma", "disk2s2", 100⟩ ∧
    dictGet dupNameDrive.existing_installers "Sonoma" = some "disk2s3" ∧
    ¬ ((some "disk2s3" : Option String) = some "disk2s2") :=
  ⟨rfl, rfl, by decide⟩

/-- C10 amended: in every structure built by `get_drive_structure`,
(1) the data partition, when present, comes from a partition named exactly
`DATA_STORE` on a matching disk entry; (2) every `existing_partitions`
entry is a non-`DATA_STORE` partition matching the installer-name test,
with the prefix-stripped clean name; (3) every binding of
`existing_installers` carries the identifier of some classified partition
under its raw or clean name — the `DATA_STORE` partition never appears
there; (4) every non-`DATA_STORE` partition of a matching entry whose name
contains `Install macOS`, `INSTALL_` or `macOS` is classified, and both its
raw and clean names are present as dict keys; (5) when a classified
partition shares no raw/clean name with any other classified partition,
both of its keys map to its own identifier (the correction: with shared
names, the last scanned partition wins the key). -/
theorem C10_amended_invariants (disk_id : String) (allDisks : List PlistDisk) :
    (∀ d, (get_drive_structure disk_id allDisks).data_partition = some d →
       ∃ e ∈ allDisks, e.deviceIdentifier = disk_id ∧
         ∃ p ∈ e.partitions, p.volumeName = "DATA_STORE" ∧
           d = ⟨p.deviceIdentifier, p.size⟩) ∧
    (∀ q ∈ (get_drive_structure disk_id allDisks).existing_partitions,
       ¬ q.name = "DATA_STORE" ∧ isInstallerVolume q.name = true ∧
         q.clean_name = cleanVolumeName q.name) ∧
    (∀ k v, dictGet (get_drive_structure disk_id allDisks).existing_installers k = some v →
       ∃ q ∈ (get_drive_structure disk_id allDisks).existing_partitions,
         v = q.id ∧ (k = q.name ∨ k = q.clean_name)) ∧
    (∀ e ∈ allDisks, e.deviceIdentifier = disk_id →
       ∀ p ∈ e.partitions, ¬ p.volumeName = "DATA_STORE" →
         isInstallerVolume p.volumeName = true →
           partitionEntry p ∈ (get_drive_structure disk_id allDisks).existing_partitions ∧
           (dictGet (get_drive_structure disk_id allDisks).existing_installers
             p.volumeName).isSome = true ∧
           (dictGet (get_drive_structure disk_id allDisks).existing_installers
             (cleanVolumeName p.volumeName)).isSome = true) ∧
    (∀ q ∈ (get_drive_structure disk_id allDisks).existing_partitions,
       (∀ q' ∈ (get_drive_structure disk_id allDisks).existing_partitions, q' ≠ q →
          ¬ q'.name = q.name ∧ ¬ q'.name = q.clean_name ∧ ¬ q'.clean_name = q.name ∧
            ¬ q'.clean_name = q.clean_name) →
       dictGet (get_drive_structure disk_id allDisks).existing_installers q.name =
         some q.id ∧
       dictGet (get_drive_structure disk_id allDisks).existing_installers q.clean_name =
         some q.id) := by
  refine ⟨?_, ?_, ?_, ?_, ?_⟩
  · -- (1) data-partition provenance
    intro d hd
    rcases foldDisks_data disk_id allDisks ⟨none, [], [], 0, 0⟩ with h | ⟨e, he, hid, p, hp, hds, h⟩
    · rw [get_drive_structure] at hd
      rw [h] at hd
      simp at hd
    · rw [get_drive_structure] at hd
      rw [h] at hd
      injection hd with hd
      exact ⟨e, he, hid, p, hp, hds, hd.symm⟩
  · -- (2) classification soundness
    intro q hq
    rw [drive_parts] at hq
    obtain ⟨e, -, -, hq⟩ := mem_allInstallerEntries.mp hq
    obtain ⟨p, -, hnd, hi, rfl⟩ := mem_installerEntries.mp hq
    exact ⟨hnd, hi, rfl⟩
  · -- (3) binding provenance
    intro k v h
    rw [drive_map_get] at h
    cases hfind : (allInstallerEntries disk_id allDisks).reverse.find? (entryKeyMatch k) with
    | none => rw [hfind] at h; simp at h
    | some q =>
      rw [hfind] at h
      have h : q.id = v := by simpa using h
      have hmem : q ∈ (get_drive_structure disk_id allDisks).existing_partitions := by
        rw [drive_parts]
        exact List.mem_reverse.mp (List.mem_of_find?_eq_some hfind)
      have hkey := List.find?_some hfind
      simp only [entryKeyMatch, Bool.or_eq_true, beq_iff_eq] at hkey
      rcases hkey with hkey | hkey
      · exact ⟨q, hmem, h.symm, Or.inr hkey.symm⟩
      · exact ⟨q, hmem, h.symm, Or.inl hkey.symm⟩
  · -- (4) classification completeness and key presence
    intro e he hid p hp hnd hi
    have hqmem : partitionEntry p ∈ (get_drive_structure disk_id allDisks).existing_partitions := by
      rw [drive_parts]
      exact mem_allInstallerEntries.mpr
        ⟨e, he, hid, mem_installerEntries.mpr ⟨p, hp, hnd, hi, rfl⟩⟩
    refine ⟨hqmem, ?_, ?_⟩
    · rw [drive_map_get]
      have hsome : ((allInstallerEntries disk_id allDisks).reverse.find?
          (entryKeyMatch p.volumeName)).isSome :=
        List.find?_isSome.mpr ⟨partitionEntry p,
          List.mem_reverse.mpr (by rw [← drive_parts]; exact hqmem),
          by simp [entryKeyMatch, partitionEntry]⟩
      obtain ⟨q'', hfind⟩ := Option.isSome_iff_exists.mp hsome
      rw [hfind]
      rfl
    · rw [drive_map_get]
      have hsome : ((allInstallerEntries disk_id allDisks).reverse.find?
          (entryKeyMatch (cleanVolumeName p.volumeName))).isSome :=
        List.find?_isSome.mpr ⟨partitionEntry p,
          List.mem_reverse.mpr (by rw [← drive_parts]; exact hqmem),
          by simp [entryKeyMatch, partitionEntry]⟩
      obtain ⟨q'', hfind⟩ := Option.isSome_iff_exists.mp hsome
      rw [hfind]
      rfl
  · -- (5) keying under uniqueness
    intro q hq huniq
    have hqrev : q ∈ (allInstallerEntries disk_id allDisks).reverse := by
      rw [List.mem_reverse, ← drive_parts]
      exact hq
    constructor
    · rw [drive_map_get]
      have hsome : ((allInstallerEntries disk_id allDisks).reverse.find?
          (entryKeyMatch q.name)).isSome :=
        List.find?_isSome.mpr ⟨q, hqrev, by simp [entryKeyMatch]⟩
      obtain ⟨q'', hfind⟩ := Option.isSome_iff_exists.mp hsome
      have hmem'' : q'' ∈ (get_drive_structure disk_id allDisks).existing_partitions := by
        rw [drive_parts]
        exact List.mem_reverse.mp (List.mem_of_find?_eq_some hfind)
      have hkey := List.find?_some hfind
      simp only [entryKeyMatch, Bool.or_eq_true, beq_iff_eq] at hkey
      have heq : q'' = q := by
        by_contra hne
        rcases huniq q'' hmem'' hne with ⟨h1, h2, h3, h4⟩
        rcases hkey with hkey | hkey
        · exact h3 hkey
        · exact h1 hkey
      rw [hfind, heq]
      rfl
    · rw [drive_map_get]
      have hsome : ((allInstallerEntries disk_id allDisks).reverse.find?
          (entryKeyMatch q.clean_name)).isSome :=
        List.find?_isSome.mpr ⟨q, hqrev, by simp [entryKeyMatch]⟩
      obtain ⟨q'', hfind⟩ := Option.isSome_iff_exists.mp hsome
      have hmem'' : q'' ∈ (get_drive_structure disk_id allDisks).existing_partitions := by
        rw [drive_parts]
        exact List.mem_reverse.mp (List.mem_of_find?_eq_some hfind)
      have hkey := List.find?_some hfind
      simp only [entryKeyMatch, Bool.or_eq_true, beq_iff_eq] at hkey
      have heq : q'' = q := by
        by_contra hne
        rcases huniq q'' hmem'' hne with ⟨h1, h2, h3, h4⟩
        rcases hkey with hkey | hkey
        · exact h4 hkey
        · exact h2 hkey
      rw [hfind, heq]
      rfl

/-- Witness for C10 at the single-installer Sierra drive, whose keys are
unique: both keys of the one classified partition map to `disk2s2`. -/
theorem C10_amended_invariants_witness :
    dictGet sierraDrive.existing_installers "Install macOS Sierra" = some "disk2s2" ∧
    dictGet sierraDrive.existing_installers "Sierra" = some "disk2s2" :=
  (C10_amended_invariants "disk2"
      [⟨"disk2", 64000000000, [⟨"Install macOS Sierra", 5368709120, "disk2s2"⟩]⟩]).2.2.2.2
    ⟨"Install macOS Sierra", "Sierra", "disk2s2", 5368709120⟩ (by decide) (by decide)

/-- Witness for C7: a two-installer run whose re-read finds the data region
at `disk2s9`; the second attempt targets `disk2s9`. -/
theorem C7_fresh_data_target_witness :
    ((([some dataDrive] : List (Option DriveInfo)).get? 0).bind
      (fun r => r.bind (fun st => st.data_partition.map (·.id)))) = some "disk2s9" :=
  C7_fresh_data_target [sonomaInstaller, highSierraInstaller] "disk2s5" [true, true]
    [some dataDrive]
    [⟨"disk2s5", "INSTALL_Sonoma_14_0"⟩, ⟨"disk2s9", "INSTALL_High Sierra_10_13_6"⟩]
    (some [⟨"INSTALL_Sonoma_14_0", sonomaInstaller⟩,
           ⟨"INSTALL_High Sierra_10_13_6", highSierraInstaller⟩])
    0 ⟨"disk2s9", "INSTALL_High Sierra_10_13_6"⟩ rfl rfl

end MultiTool
